import Mathlib

/-
Shallow embedding of the pebble-solutions/appjs client toolkit.

Covered source:
- src/services/store.js        (dataCollectionMutation)
- src/services/AssetsCollection.js  (AssetsCollection: getById, load,
  listNotLoadedIds, isLoaded, isNotFound, addToNotFound, removeFromNotFound,
  checkForNotFound, setPending, reset, updateCollection)
- src/app.js                   (authToApi / startAuthTimer margin logic,
  checkAuth licence-resolution event flow, toggleLicence)

JavaScript values that act as ids are modelled by `JsVal` (integers, strings,
undefined); loose `==` and strict `===` are modelled by `jsEq` / `jsStrictEq`
on that value space, with string-to-number conversion covering the integer
literal forms that ids take in this code base.  Objects are association lists
from string keys to `JsVal`.  Network responses are passed in as explicit
parameters, so every operation is a pure state transformer.
-/

namespace Appjs

/-- JavaScript values used as ids and record fields in this code base. -/
inductive JsVal where
  | num (n : Int)
  | str (s : String)
  | undefined
deriving DecidableEq, Repr

/-- Digit-sequence parser used to model ToNumber on integer-literal strings. -/
def parseNatDigits (l : List Char) : Option Nat :=
  if l.isEmpty then none
  else
    l.foldl
      (fun acc c =>
        match acc with
        | some n => if c.isDigit then some (n * 10 + (c.toNat - (Char.toNat '0'))) else none
        | none => none)
      (some 0)

/-- Signed integer literal parser over a character list. -/
def parseIntChars : List Char → Option Int
  | '-' :: rest => (parseNatDigits rest).map (fun n => -(n : Int))
  | l => (parseNatDigits l).map (fun n => (n : Int))

/-- Models the JavaScript ToNumber conversion on the string shapes this code
uses as ids: the empty string converts to 0, decimal integer literals (with
optional sign and leading zeros) to their value, and anything else to NaN,
represented as `none`. -/
def jsToNumber (s : String) : Option Int :=
  if s.data.isEmpty then some 0 else parseIntChars s.data

/-- JavaScript loose equality `==` restricted to the id value space: numbers
compare numerically, strings compare as strings, a number and a string compare
by converting the string to a number, and `undefined == undefined` holds. -/
def jsEq : JsVal → JsVal → Bool
  | .num a, .num b => a == b
  | .str a, .str b => a == b
  | .num a, .str s => jsToNumber s == some a
  | .str s, .num a => jsToNumber s == some a
  | .undefined, .undefined => true
  | _, _ => false

/-- JavaScript strict equality `===` on the id value space: no cross-type
coercion. -/
def jsStrictEq : JsVal → JsVal → Bool
  | .num a, .num b => a == b
  | .str a, .str b => a == b
  | .undefined, .undefined => true
  | _, _ => false

/-- JavaScript truthiness of an id value: 0, the empty string and undefined
are falsy. -/
def jsTruthy : JsVal → Bool
  | .num n => !(n == 0)
  | .str s => !(s == "")
  | .undefined => false

/-- A JavaScript object, as an association list from keys to values.  Keys of
real objects are unique; operations below keep the first binding
authoritative. -/
abbrev JsObj := List (String × JsVal)

/-- Property read `o[k]`: the first binding of `k`, or undefined. -/
def objGet (o : JsObj) (k : String) : JsVal :=
  match o.find? (fun kv => kv.1 == k) with
  | some kv => kv.2
  | none => .undefined

/-- Property write `o[k] = v`: replaces the first binding of `k`, or appends a
new binding. -/
def objSet (o : JsObj) (k : String) (v : JsVal) : JsObj :=
  match o with
  | [] => [(k, v)]
  | kv :: rest => if kv.1 == k then (k, v) :: rest else kv :: objSet rest k v

/-- Whether the object carries the key `k`. -/
def hasKey (o : JsObj) (k : String) : Bool :=
  o.any (fun kv => kv.1 == k)

/-- Field-by-field overwrite `for (const key in data) found[key] = data[key]`
from src/services/store.js: every binding of `data` is written onto `found`
in order. -/
def mergeInto (found data : JsObj) : JsObj :=
  data.foldl (fun acc kv => objSet acc kv.1 kv.2) found

/-! ## src/services/store.js — dataCollectionMutation

The store state is represented by the mutated collection
`state[assetName] : List JsObj`; `collectionOptions.collection` is the item
list and `collectionOptions.action` the mode string. -/

/-- Models the comparison `index !== -1` in the remove branch, where `index`
is the result of `Array.prototype.find`: an element object or `undefined`,
never the number `-1`, so the strict inequality always holds. -/
def strictNeqMinusOne (_index : Option JsObj) : Bool := true

/-- Models `state[assetName].splice(index, 1)` in the remove branch, where
`index` is an object or `undefined`: ToIntegerOrInfinity maps an object (NaN)
and `undefined` alike to 0, so the element at position 0 is removed. -/
def spliceCoercedIndex (coll : List JsObj) (_index : Option JsObj) : List JsObj :=
  coll.tail

/-- One iteration of the `remove` branch of `dataCollectionMutation`:
`const index = state[assetName].find(e => e.id == data.id);
 if (index !== -1) { state[assetName].splice(index, 1); }`. -/
def removeStep (coll : List JsObj) (data : JsObj) : List JsObj :=
  let index := coll.find? (fun e => jsEq (objGet e "id") (objGet data "id"))
  if strictNeqMinusOne index then spliceCoercedIndex coll index else coll

/-- One iteration of the default (`refresh`) branch of
`dataCollectionMutation`: the first entry whose `id` loosely equals the
item's `id` is merged in place, otherwise the item is pushed at the end. -/
def refreshStep : List JsObj → JsObj → List JsObj
  | [], data => [data]
  | e :: rest, data =>
      if jsEq (objGet e "id") (objGet data "id") then
        mergeInto e data :: rest
      else
        e :: refreshStep rest data

/-- `dataCollectionMutation(state, {assetName, collection, action})` from
src/services/store.js, acting on the collection stored at
`state[assetName]`.  `action = "replace"` overwrites wholesale; every other
action folds the per-item remove or refresh step over the item list. -/
def dataCollectionMutation (coll : List JsObj) (action : String)
    (collection : List JsObj) : List JsObj :=
  if action = "replace" then collection
  else
    collection.foldl
      (fun st data => if action = "remove" then removeStep st data else refreshStep st data)
      coll

/-- Spec-side rendering of the `remove` mode as the specification describes
it: for each item, the entry whose `id` loosely equals the item's `id` is
deleted when present, and the collection is unchanged otherwise. -/
def specRemoveStep (coll : List JsObj) (data : JsObj) : List JsObj :=
  match coll.findIdx? (fun e => jsEq (objGet e "id") (objGet data "id")) with
  | some i => coll.eraseIdx i
  | none => coll

/-- Spec-side rendering of `dataCollectionMutation` in `remove` mode. -/
def specRemoveMutation (coll : List JsObj) (collection : List JsObj) : List JsObj :=
  collection.foldl specRemoveStep coll

/-! ## src/services/AssetsCollection.js

The parts of the VueX store an `AssetsCollection` instance touches are the
target collection `state[assetName]`, the instance field `notFoundIds`, and
the pending flag `state.pending[pendingKey]` (`none` when the key is
undefined, in which case `setPending` leaves the store alone).  The instance
under study uses the default direct-mutation paths (no `updateAction` /
`resetAction` delegation), so `updateCollection` and `reset` call
`dataCollectionMutation` directly, as the source does in its else branches. -/

structure ACState where
  collection : List JsObj
  notFoundIds : List JsVal
  pending : Option Bool
deriving DecidableEq, Repr

/-- JavaScript truthiness of an optional string-valued payload entry:
`none` models an absent key (undefined) and the empty string is falsy. -/
def jsTruthyStr : Option String → Bool
  | some s => !(s == "")
  | none => false

/-- `String.prototype.split(",")`, character by character; like the
JavaScript original it yields the singleton list of the empty string on empty
input and keeps empty fragments between separators. -/
def splitCommaAux : List Char → List Char → List String
  | [], acc => [String.mk acc.reverse]
  | c :: rest, acc =>
      if c = ',' then String.mk acc.reverse :: splitCommaAux rest []
      else splitCommaAux rest (c :: acc)

/-- Entry point for the comma split. -/
def splitComma (s : String) : List String :=
  splitCommaAux s.data []

/-- `Array.prototype.join(",")`: the empty list joins to the empty string. -/
def joinComma : List String → String
  | [] => ""
  | [s] => s
  | s :: rest => s ++ "," ++ joinComma rest

/-- `isNotFound(id)`: `this.notFoundIds.findIndex(e => e == id) !== -1`. -/
def isNotFound (st : ACState) (id : JsVal) : Bool :=
  st.notFoundIds.any (fun e => jsEq e id)

/-- Removal of the first loosely-equal entry, the effect of
`findIndex(e => e == id)` followed by `splice(index, 1)` when the index is
not -1. -/
def removeFirstMatch : List JsVal → JsVal → List JsVal
  | [], _ => []
  | a :: t, id => if jsEq a id then t else a :: removeFirstMatch t id

/-- `removeFromNotFound(id)` from src/services/AssetsCollection.js. -/
def removeFromNotFound (st : ACState) (id : JsVal) : ACState :=
  { st with notFoundIds := removeFirstMatch st.notFoundIds id }

/-- `addToNotFound(id)`: pushes `id` only when
`findIndex(e => e == id) === -1`. -/
def addToNotFound (st : ACState) (id : JsVal) : ACState :=
  if st.notFoundIds.any (fun e => jsEq e id) then st
  else { st with notFoundIds := st.notFoundIds ++ [id] }

/-- `setPending(val)`: writes `state.pending[pendingKey]` only when that key
is defined. -/
def setPending (st : ACState) (v : Bool) : ACState :=
  match st.pending with
  | some _ => { st with pending := some v }
  | none => st

/-- `updateCollection(collection)` on the default path: a `refresh` store
mutation. -/
def updateCollection (st : ACState) (data : List JsObj) : ACState :=
  { st with collection := dataCollectionMutation st.collection "refresh" data }

/-- `reset()` on the default path: clears `notFoundIds` and replaces the
collection with the empty collection. -/
def reset (st : ACState) : ACState :=
  { st with
      notFoundIds := [],
      collection := dataCollectionMutation st.collection "replace" [] }

/-- `checkForNotFound(requestIds, responseData)`: each requested id is looked
up in the response with strict equality `e.id === id` (the request ids are
the strings produced by `split(",")`) and accordingly removed from or added
to `notFoundIds`. -/
def checkForNotFound (st : ACState) (requestIds : List String)
    (data : List JsObj) : ACState :=
  requestIds.foldl
    (fun s id =>
      if (data.find? (fun e => jsStrictEq (objGet e "id") (.str id))).isSome then
        removeFromNotFound s (.str id)
      else
        addToNotFound s (.str id))
    st

/-- `isLoaded(id)` for a string id taken from a split id list:
`this.getCollection().find(e => e.id == id)` or membership in the not-found
cache. -/
def isLoaded (st : ACState) (id : String) : Bool :=
  (st.collection.find? (fun e => jsEq (objGet e "id") (.str id))).isSome
    || isNotFound st (.str id)

/-- Truthiness of the value returned by
`checkedIds.find(e => e == id)`: `undefined` and the empty string are
falsy. -/
def foundStrTruthy : Option String → Bool
  | none => false
  | some s => !(s == "")

/-- Loop body of `listNotLoadedIds`: `checkedIds` accumulates every id seen
so far, and an id is emitted when it is not loaded, not truthily present in
`checkedIds`, and itself truthy. -/
def listNotLoadedIdsGo (st : ACState) (checked : List String) :
    List String → List String
  | [] => []
  | id :: rest =>
      if !(isLoaded st id) && !(foundStrTruthy (checked.find? (fun e => e == id)))
          && !(id == "") then
        id :: listNotLoadedIdsGo st (checked ++ [id]) rest
      else
        listNotLoadedIdsGo st (checked ++ [id]) rest

/-- `listNotLoadedIds(ids)` from src/services/AssetsCollection.js. -/
def listNotLoadedIds (st : ACState) (ids : List String) : List String :=
  listNotLoadedIdsGo st [] ids

/-- Result of a `getById` call: the settled promise value (`Except.error ()`
models the thrown `UndefinedIdException`), whether a network request was
issued, and the resulting state. -/
structure GetByIdResult where
  result : Except Unit (Option JsObj)
  networkCalled : Bool
  state : ACState

/-- `getById(id, options)` from src/services/AssetsCollection.js.  `bypass`
is `options.bypass_not_found_cache` and `server` the value the API request
would resolve with (`none` models a null response). -/
def getById (st : ACState) (id : JsVal) (bypass : Bool)
    (server : Option JsObj) : GetByIdResult :=
  if jsTruthy id = false then
    { result := .error (), networkCalled := false, state := st }
  else
    match st.collection.find? (fun e => jsEq (objGet e "id") id) with
    | some found =>
        { result := .ok (some found), networkCalled := false,
          state := removeFromNotFound st (objGet found "id") }
    | none =>
        if isNotFound st id && !bypass then
          { result := .ok none, networkCalled := false, state := st }
        else
          match server with
          | some data =>
              { result := .ok (some data), networkCalled := true,
                state := updateCollection (removeFromNotFound st id) [data] }
          | none =>
              { result := .ok none, networkCalled := true,
                state := addToNotFound st id }

/-- What a `load` call came to: the early return on an empty filtered id
list, a resolved request, or a rejected request. -/
inductive LoadOutcome where
  | shortCircuit
  | success (data : List JsObj)
  | failure
deriving DecidableEq, Repr

/-- Result of a `load` call: the outcome, the id-list parameter of the
network request (`none` when no request was issued; `some none` models a
request whose payload carries no id key), and the resulting state. -/
structure LoadResult where
  outcome : LoadOutcome
  sent : Option (Option String)
  state : ACState

/-- Merge `{...this.requestPayload, ...payload}` restricted to the `idParam`
entry: the caller payload's entry wins when present. -/
def mergedIdParam (requestPayloadId payloadId : Option String) : Option String :=
  match payloadId with
  | some s => some s
  | none => requestPayloadId

/-- Body of the `try { ... } finally { this.setPending(false); }` block of
`load`: the request is issued (its id parameter is `sentId`), then, when the
original caller payload carried a truthy id list, `checkForNotFound`
reconciles those unfiltered ids against the response, the response is merged
into the collection, and the pending flag is reset — also on the rejection
path. -/
def loadRequestPart (st : ACState) (payloadId : Option String)
    (sentId : Option String) (server : Except Unit (List JsObj)) : LoadResult :=
  match server with
  | .error _ =>
      { outcome := .failure, sent := some sentId, state := setPending st false }
  | .ok data =>
      let st1 :=
        if jsTruthyStr payloadId then
          checkForNotFound st (splitComma (payloadId.getD "")) data
        else st
      let st2 := updateCollection st1 data
      { outcome := .success data, sent := some sentId, state := setPending st2 false }

/-- `load(payload)` from src/services/AssetsCollection.js.
`requestPayloadId` and `payloadId` are the `idParam` entries of the fixed
request payload and of the caller payload; `server` is the outcome the API
request would have.  When the merged id entry is truthy it is split, filtered
through `listNotLoadedIds` and re-joined; if the joined list is empty the
function returns at once — before the `try`/`finally`, so without resetting
the pending flag it set on entry. -/
def load (st0 : ACState) (requestPayloadId payloadId : Option String)
    (server : Except Unit (List JsObj)) : LoadResult :=
  let st := setPending st0 true
  let plId := mergedIdParam requestPayloadId payloadId
  if jsTruthyStr plId then
    let ids := splitComma (plId.getD "")
    let joined := joinComma (listNotLoadedIds st ids)
    if joined = "" then
      { outcome := .shortCircuit, sent := none, state := st }
    else
      loadRequestPart st payloadId (some joined) server
  else
    loadRequestPart st payloadId plId server

/-! ## src/app.js — session margin, licence resolution, licence activation -/

/-- The persisted `local_user` blob restricted to what `authToApi` and
`startAuthTimer` read: `token.exp`, a Unix timestamp in seconds. -/
structure LocalUser where
  tokenExp : Int
deriving DecidableEq, Repr

/-- Which branch `authToApi` takes: a full remote re-authentication through
`refreshAuthToApi`, or reuse of the cached credentials with the refresh timer
armed for the given number of milliseconds. -/
inductive AuthPath where
  | fullRefresh
  | reuseCached (timerDelay : Int)
deriving DecidableEq, Repr

/-- Branch selection of `authToApi` (src/app.js): with a persisted session,
`diff = exp * 1000 - now - 20000`; when `diff <= 0` the token is treated as
expired or about to expire and a full refresh is performed, otherwise the
cached session is reused via `initializeLocalUser` and `startAuthTimer` arms
the timer with the same difference (the synchronous flow recomputes it at an
unchanged clock reading). -/
def authToApiPath (localUser : Option LocalUser) (now : Int) : AuthPath :=
  match localUser with
  | none => .fullRefresh
  | some u =>
      let expMs := u.tokenExp * 1000
      let diff := expMs - now - 20000
      if diff ≤ 0 then .fullRefresh
      else .reuseCached (expMs - now - 20000)

/-- A licence (tenant) record restricted to what `toggleLicence` reads:
`db` is the endpoint host (`none` models an absent or null field) and `tls`
the encrypted-transport flag. -/
structure Licence where
  db : Option String
  tls : Bool
deriving DecidableEq, Repr

/-- The session state `toggleLicence` can mutate: the licence blob persisted
in sessionStorage, the in-memory `this.licence`, the HTTP base URL
`this.api.baseURL`, and the number of `initializeAxios` reconfigurations. -/
structure AppState where
  storedLicence : Option Licence
  licence : Option Licence
  baseURL : Option String
  axiosInits : Nat
deriving DecidableEq, Repr

/-- Events dispatched by the authentication flow, in dispatch order.
`authStarted` stands for the event the source names `auth`, dispatched on
entry to `authToApi`. -/
inductive AppEvent where
  | authInitializing
  | licencesRetrieved
  | beforeLicenceChange
  | licenceChanged
  | authStarted
  | authInited
  | authError
deriving DecidableEq, Repr

/-- `toggleLicence(licence)` from src/app.js: when `licence.db` is falsy the
`LicenceServerUndefinedError` is thrown before anything else runs; otherwise
the licence is persisted and set in memory, the base URL is rebuilt from the
TLS flag and host, axios is re-initialized, and `authToApi` is invoked (its
entry event closes the event list). -/
def toggleLicence (st : AppState) (lic : Licence) :
    Except Unit (List AppEvent) × AppState :=
  if jsTruthyStr lic.db = false then
    (.error (), st)
  else
    let baseURL := "http" ++ (if lic.tls then "s" else "") ++ "://"
                     ++ lic.db.getD "" ++ "/api/"
    (.ok [.beforeLicenceChange, .licenceChanged, .authStarted],
     { storedLicence := some lic, licence := some lic, baseURL := some baseURL,
       axiosInits := st.axiosInits + 1 })

/-- Event trace of the signed-in branch of `checkAuth` (src/app.js), given
the licences `autoSelectLicences` resolves to and whether the `authToApi`
exchange of a single-licence activation succeeds.  Zero licences throw
`LicenceNotFoundError` into the catch; exactly one licence is activated and
`authInited` follows the activation chain; with two or more licences
`licencesRetrieved` is dispatched and the handler returns undefined, so the
chained `.then` dispatches `authInited` immediately. -/
def checkAuthTrace (st : AppState) (licences : List Licence) (authOk : Bool) :
    List AppEvent :=
  .authInitializing ::
    match licences with
    | [] => [.authError]
    | [l] =>
        match toggleLicence st l with
        | (.error _, _) => [.authError]
        | (.ok evs, _) => evs ++ [if authOk then .authInited else .authError]
    | _ :: _ :: _ => [.licencesRetrieved, .authInited]

/-! ## Invariant and trace vocabulary for the claims -/

/-- The Collection/NotFoundSet disjointness invariant: no collection entry's
`id` loosely equals any entry of `notFoundIds`. -/
def disjointNF (st : ACState) : Bool :=
  st.collection.all (fun e => st.notFoundIds.all (fun nf => !(jsEq (objGet e "id") nf)))

/-- Whether a value is a number. -/
def isNumVal : JsVal → Bool
  | .num _ => true
  | _ => false

/-- The not-found list holds no two entries that are loosely equal. -/
def nfPairwise (l : List JsVal) : Prop :=
  l.Pairwise (fun a b => jsEq a b = false)

/-- Operations of the amended C2 trace: `getById` calls (with their network
outcome) and `reset`. -/
inductive ACOp where
  | opGetById (id : JsVal) (bypass : Bool) (server : Option JsObj)
  | opReset
deriving Repr

/-- State transition of one C2 trace operation. -/
def applyACOp (st : ACState) : ACOp → ACState
  | .opGetById id b srv => (getById st id b srv).state
  | .opReset => reset st

/-- Well-behaved operation: a `getById` uses a numeric id and its server
response, when non-null, carries exactly the requested id. -/
def faithfulOpB : ACOp → Bool
  | .opGetById id _ (some data) => isNumVal id && decide (objGet data "id" = id)
  | .opGetById id _ none => isNumVal id
  | .opReset => true

/-- Operations of the C10 trace: every operation of the source that touches
`notFoundIds`, with arbitrary payloads and server outcomes. -/
inductive FullOp where
  | fGetById (id : JsVal) (bypass : Bool) (server : Option JsObj)
  | fLoad (requestPayloadId payloadId : Option String) (server : Except Unit (List JsObj))
  | fAdd (id : JsVal)
  | fRemove (id : JsVal)
  | fCheck (ids : List String) (data : List JsObj)
  | fReset

/-- State transition of one C10 trace operation. -/
def applyFullOp (st : ACState) : FullOp → ACState
  | .fGetById id b srv => (getById st id b srv).state
  | .fLoad rp p srv => (load st rp p srv).state
  | .fAdd id => addToNotFound st id
  | .fRemove id => removeFromNotFound st id
  | .fCheck ids data => checkForNotFound st ids data
  | .fReset => reset st

/-- First-occurrence de-duplication with an explicit seen accumulator. -/
def dedupFirstGo (seen : List String) : List String → List String
  | [] => []
  | id :: rest =>
      if seen.any (fun e => e == id) then dedupFirstGo seen rest
      else id :: dedupFirstGo (id :: seen) rest

/-- Keeps each string at its first occurrence only. -/
def dedupFirst (l : List String) : List String :=
  dedupFirstGo [] l

/-- Spec-side id filter exactly as claim C5 words it: the input ids that are
resolvable neither from the Collection nor from the not-found cache, with
duplicates kept only at first occurrence. -/
def claimNotLoadedIds (st : ACState) (ids : List String) : List String :=
  dedupFirst (ids.filter (fun id => !(isLoaded st id)))

/-- Spec-side id filter as amended: falsy (empty) ids are additionally
dropped, as the `&& id` conjunct of the source does. -/
def specNotLoadedIds (st : ACState) (ids : List String) : List String :=
  dedupFirst (ids.filter (fun id => !(id == "") && !(isLoaded st id)))

/-! ## Theorems -/

/-- C1: the claim says a `remove` mutation deletes exactly the entry whose id
value-equals each item's id and leaves the collection unchanged otherwise.
The code compares the result of `Array.prototype.find` (an element or
undefined, never -1) against -1 and feeds it to `splice`, whose start index
coerces to 0, so each processed item deletes the first entry of the
collection regardless of ids: on `[{id:1}, {id:2}]` with item list
`[{id:2}]` the code leaves `[{id:2}]` where the specified behaviour leaves
`[{id:1}]`. -/
theorem c1_remove_deletes_head_not_matching_entry :
    dataCollectionMutation [[("id", JsVal.num 1)], [("id", JsVal.num 2)]] "remove"
        [[("id", JsVal.num 2)]]
      = [[("id", JsVal.num 2)]] ∧
    specRemoveMutation [[("id", JsVal.num 1)], [("id", JsVal.num 2)]]
        [[("id", JsVal.num 2)]]
      = [[("id", JsVal.num 1)]] ∧
    dataCollectionMutation [[("id", JsVal.num 1)], [("id", JsVal.num 2)]] "remove"
        [[("id", JsVal.num 2)]]
      ≠ specRemoveMutation [[("id", JsVal.num 1)], [("id", JsVal.num 2)]]
          [[("id", JsVal.num 2)]] := by
  decide

/-- C3: the claim says every exit path of `load` leaves the pending flag
false.  The early `return` taken when the filtered id list is empty sits
before the `try`/`finally`, so on that path — here `load({id:"1"})` with id 1
already in the collection and the pending key defined — the function returns
with the flag still true. -/
theorem c3_pending_not_reset_on_short_circuit :
    (load ⟨[[("id", JsVal.num 1)]], [], some false⟩ none (some "1") (.ok [])).outcome
      = .shortCircuit ∧
    (load ⟨[[("id", JsVal.num 1)]], [], some false⟩ none (some "1") (.ok [])).sent
      = none ∧
    (load ⟨[[("id", JsVal.num 1)]], [], some false⟩ none (some "1") (.ok [])).state.pending
      = some true := by
  decide

/-- C7: with a persisted session whose expiry lies less than 20 seconds
ahead, `authToApi` performs the full remote re-authentication; with more than
20 seconds remaining it reuses the cached credentials and arms the refresh
timer for `expiry - now - 20s`. -/
theorem c7_auth_refresh_margin (u : LocalUser) (now : Int) :
    (u.tokenExp * 1000 - now < 20000 →
      authToApiPath (some u) now = .fullRefresh) ∧
    (u.tokenExp * 1000 - now > 20000 →
      authToApiPath (some u) now = .reuseCached (u.tokenExp * 1000 - now - 20000)) := by
  have hdef : authToApiPath (some u) now
      = if u.tokenExp * 1000 - now - 20000 ≤ 0 then .fullRefresh
        else .reuseCached (u.tokenExp * 1000 - now - 20000) := rfl
  constructor
  · intro h
    rw [hdef, if_pos (by omega)]
  · intro h
    rw [hdef, if_neg (by omega)]

/-- Witness for C7: a session expiring in 5 seconds is fully refreshed; one
expiring in 100 seconds is reused with the timer armed for 80 seconds. -/
theorem c7_auth_refresh_margin_witness :
    authToApiPath (some ⟨5⟩) 0 = .fullRefresh ∧
    authToApiPath (some ⟨100⟩) 0 = .reuseCached (100 * 1000 - 0 - 20000) := by
  exact ⟨(c7_auth_refresh_margin ⟨5⟩ 0).1 (by decide),
         (c7_auth_refresh_margin ⟨100⟩ 0).2 (by decide)⟩

/-- C9: activating a licence whose `db` endpoint host is absent or null
throws `LicenceServerUndefinedError` before any mutation, so the persisted
licence, the in-memory licence, the base URL and the axios configuration are
all left unchanged. -/
theorem c9_toggle_licence_rejects_null_db (st : AppState) (lic : Licence)
    (h : lic.db = none) :
    (toggleLicence st lic).1 = .error () ∧ (toggleLicence st lic).2 = st := by
  simp [toggleLicence, h, jsTruthyStr]

/-- Witness for C9 at a concrete state and licence. -/
theorem c9_toggle_licence_rejects_null_db_witness :
    (toggleLicence ⟨none, none, some "http://old/api/", 3⟩ ⟨none, true⟩).1 = .error () ∧
    (toggleLicence ⟨none, none, some "http://old/api/", 3⟩ ⟨none, true⟩).2
      = ⟨none, none, some "http://old/api/", 3⟩ :=
  c9_toggle_licence_rejects_null_db ⟨none, none, some "http://old/api/", 3⟩ ⟨none, true⟩ rfl

/-- C8 counterexample: with two licences resolved for the identity the claim
says `authInited` fires only after explicit selection and activation; the
trace the code produces dispatches `authInited` right after
`licencesRetrieved`, with no activation event in sight. -/
theorem c8_counterexample_auto_authInited :
    checkAuthTrace ⟨none, none, none, 0⟩ [⟨some "a", true⟩, ⟨some "b", true⟩] true
      = [.authInitializing, .licencesRetrieved, .authInited] ∧
    AppEvent.authInited
      ∈ checkAuthTrace ⟨none, none, none, 0⟩ [⟨some "a", true⟩, ⟨some "b", true⟩] true ∧
    AppEvent.beforeLicenceChange
      ∉ checkAuthTrace ⟨none, none, none, 0⟩ [⟨some "a", true⟩, ⟨some "b", true⟩] true ∧
    AppEvent.licenceChanged
      ∉ checkAuthTrace ⟨none, none, none, 0⟩ [⟨some "a", true⟩, ⟨some "b", true⟩] true := by
  decide

/-- C8 as amended: with two or more licences, `checkAuth` dispatches
`authInited` automatically, immediately after `licencesRetrieved` and before
any tenant selection; only in the single-licence case does `authInited`
follow the activation events. -/
theorem c8_amended_authInited_fires_automatically :
    (∀ (st : AppState) (l1 l2 : Licence) (rest : List Licence) (authOk : Bool),
        checkAuthTrace st (l1 :: l2 :: rest) authOk
          = [.authInitializing, .licencesRetrieved, .authInited]) ∧
    (∀ (st : AppState) (l : Licence) (authOk : Bool),
        jsTruthyStr l.db = true →
        checkAuthTrace st [l] authOk
          = [.authInitializing, .beforeLicenceChange, .licenceChanged, .authStarted,
             if authOk then .authInited else .authError]) := by
  constructor
  · intro st l1 l2 rest authOk
    rfl
  · intro st l authOk h
    simp [checkAuthTrace, toggleLicence, h]

/-- Witness for the amended C8 at concrete licences. -/
theorem c8_amended_authInited_fires_automatically_witness :
    checkAuthTrace ⟨none, none, none, 0⟩ [⟨some "a", true⟩, ⟨some "b", false⟩] false
      = [.authInitializing, .licencesRetrieved, .authInited] ∧
    checkAuthTrace ⟨none, none, none, 0⟩ [⟨some "a", false⟩] true
      = [.authInitializing, .beforeLicenceChange, .licenceChanged, .authStarted,
         if true then .authInited else .authError] :=
  ⟨c8_amended_authInited_fires_automatically.1 ⟨none, none, none, 0⟩
      ⟨some "a", true⟩ ⟨some "b", false⟩ [] false,
   c8_amended_authInited_fires_automatically.2 ⟨none, none, none, 0⟩
      ⟨some "a", false⟩ true (by decide)⟩

/-- C4: on a fresh collection not containing id 5, a `getById(5)` answered
null by the server marks 5 not-found; a second `getById(5)` without the
bypass option resolves to null without a network call; with
`bypass_not_found_cache` set the network is contacted again. -/
theorem c4_notfound_cache_scenario (st : ACState)
    (hnf : st.notFoundIds = [])
    (hcoll : ∀ e ∈ st.collection, jsEq (objGet e "id") (JsVal.num 5) = false) :
    isNotFound (getById st (.num 5) false none).state (.num 5) = true ∧
    (∀ server,
      (getById (getById st (.num 5) false none).state (.num 5) false server).result
          = .ok none ∧
      (getById (getById st (.num 5) false none).state (.num 5) false server).networkCalled
          = false) ∧
    (∀ server,
      (getById (getById st (.num 5) false none).state (.num 5) true server).networkCalled
          = true) := by
  have htr : jsTruthy (JsVal.num 5) = true := by decide
  have hfind : st.collection.find? (fun e => jsEq (objGet e "id") (JsVal.num 5)) = none := by
    rw [List.find?_eq_none]
    intro e he
    simp [hcoll e he]
  have h1 : (getById st (.num 5) false none).state
      = { st with notFoundIds := [JsVal.num 5] } := by
    simp [getById, htr, hfind, isNotFound, hnf, addToNotFound]
  have hfind1 : ({ st with notFoundIds := [JsVal.num 5] } : ACState).collection.find?
      (fun e => jsEq (objGet e "id") (JsVal.num 5)) = none := hfind
  have hnf1 : isNotFound ({ st with notFoundIds := [JsVal.num 5] } : ACState)
      (JsVal.num 5) = true := by
    simp [isNotFound, jsEq]
  refine ⟨?_, ?_, ?_⟩
  · rw [h1]
    exact hnf1
  · intro server
    rw [h1]
    constructor <;> simp [getById, htr, hfind1, hnf1]
  · intro server
    rw [h1]
    cases server <;> simp [getById, htr, hfind1]

/-- Witness for C4 at a one-entry collection not containing id 5. -/
theorem c4_notfound_cache_scenario_witness :
    isNotFound (getById ⟨[[("id", JsVal.num 1)]], [], none⟩ (.num 5) false none).state
        (.num 5) = true ∧
    (getById (getById ⟨[[("id", JsVal.num 1)]], [], none⟩ (.num 5) false none).state
        (.num 5) false (some [("id", JsVal.num 5)])).result = .ok none ∧
    (getById (getById ⟨[[("id", JsVal.num 1)]], [], none⟩ (.num 5) false none).state
        (.num 5) false (some [("id", JsVal.num 5)])).networkCalled = false ∧
    (getById (getById ⟨[[("id", JsVal.num 1)]], [], none⟩ (.num 5) false none).state
        (.num 5) true none).networkCalled = true := by
  have h := c4_notfound_cache_scenario ⟨[[("id", JsVal.num 1)]], [], none⟩ rfl (by decide)
  exact ⟨h.1, (h.2.1 (some [("id", JsVal.num 5)])).1,
         (h.2.1 (some [("id", JsVal.num 5)])).2, h.2.2 none⟩

/-- Reading through a cons: the head binding answers when its key matches. -/
theorem objGet_cons (kv : String × JsVal) (o : JsObj) (k : String) :
    objGet (kv :: o) k = if kv.1 == k then kv.2 else objGet o k := by
  by_cases h : kv.1 = k
  · simp [objGet, List.find?, h]
  · have hb : (kv.1 == k) = false := by simpa using h
    simp [objGet, List.find?, hb]

/-- hasKey through a cons. -/
theorem hasKey_cons (kv : String × JsVal) (o : JsObj) (k : String) :
    hasKey (kv :: o) k = ((kv.1 == k) || hasKey o k) := by
  simp [hasKey]

/-- hasKey is membership among the keys. -/
theorem hasKey_iff_mem (o : JsObj) (k : String) :
    hasKey o k = true ↔ k ∈ o.map Prod.fst := by
  simp only [hasKey, List.any_eq_true, List.mem_map, beq_iff_eq]

/-- Writing a key then reading it back yields the written value. -/
theorem objGet_objSet_same (o : JsObj) (k : String) (v : JsVal) :
    objGet (objSet o k v) k = v := by
  induction o with
  | nil => simp [objSet, objGet, List.find?]
  | cons kv rest ih =>
      by_cases h : kv.1 = k
      · have hb : (kv.1 == k) = true := by simpa using h
        simp [objSet, hb, objGet_cons]
      · have hb : (kv.1 == k) = false := by simpa using h
        simp [objSet, hb, objGet_cons, ih]

/-- Writing one key leaves every other key unchanged. -/
theorem objGet_objSet_other (o : JsObj) (k k2 : String) (v : JsVal)
    (h : k ≠ k2) :
    objGet (objSet o k v) k2 = objGet o k2 := by
  have hb : (k == k2) = false := by simpa using h
  induction o with
  | nil => simp [objSet, objGet_cons, hb, objGet]
  | cons kv rest ih =>
      by_cases hk : kv.1 = k
      · have hb1 : (kv.1 == k) = true := by simpa using hk
        have hb2 : (kv.1 == k2) = false := by simpa using hk ▸ h
        simp [objSet, hb1, objGet_cons, hb, hb2]
      · have hb1 : (kv.1 == k) = false := by simpa using hk
        simp [objSet, hb1, objGet_cons, ih]

/-- Shallow merge `for key in data: found[key] = data[key]`: a key bound in
`data` (whose keys, as a JavaScript object's keys, are distinct) reads from
`data`, every other key reads from `found`. -/
theorem objGet_mergeInto (data : JsObj) (found : JsObj) (k : String)
    (h : (data.map Prod.fst).Nodup) :
    objGet (mergeInto found data)
        k = if hasKey data k then objGet data k else objGet found k := by
  induction data generalizing found with
  | nil => simp [mergeInto, hasKey, objGet]
  | cons kv rest ih =>
      obtain ⟨k0, v0⟩ := kv
      simp only [List.map_cons, List.nodup_cons] at h
      obtain ⟨hnotin, hnd⟩ := h
      have hm : mergeInto found ((k0, v0) :: rest) = mergeInto (objSet found k0 v0) rest := rfl
      rw [hm, ih (objSet found k0 v0) hnd]
      by_cases hk : hasKey rest k
      · have hkmem : k ∈ rest.map Prod.fst := (hasKey_iff_mem rest k).mp hk
        have hk0 : (k0 == k) = false := by
          have : k0 ≠ k := fun hkk => hnotin (hkk ▸ hkmem)
          simpa using this
        simp [hk, hk0, hasKey_cons, objGet_cons]
      · by_cases hkk : k0 = k
        · subst hkk
          simp [hk, hasKey_cons, objGet_cons, objGet_objSet_same]
        · have hk0 : (k0 == k) = false := by simpa using hkk
          simp [hk, hk0, hasKey_cons, objGet_cons, objGet_objSet_other _ _ _ _ hkk]

/-- When no entry's id matches, the refresh step appends the item once. -/
theorem refreshStep_append (coll : List JsObj) (data : JsObj)
    (h : ∀ e ∈ coll, jsEq (objGet e "id") (objGet data "id") = false) :
    refreshStep coll data = coll ++ [data] := by
  induction coll with
  | nil => rfl
  | cons e rest ih =>
      have he := h e (List.mem_cons_self e rest)
      simp [refreshStep, he, ih (fun x hx => h x (List.mem_cons_of_mem e hx))]

/-- When the first matching entry is `found`, the refresh step merges the
item onto it and leaves everything else untouched. -/
theorem refreshStep_merge (pre post : List JsObj) (found data : JsObj)
    (hpre : ∀ e ∈ pre, jsEq (objGet e "id") (objGet data "id") = false)
    (hf : jsEq (objGet found "id") (objGet data "id") = true) :
    refreshStep (pre ++ found :: post) data = pre ++ mergeInto found data :: post := by
  induction pre with
  | nil => simp [refreshStep, hf]
  | cons e rest ih =>
      have he := hpre e (List.mem_cons_self e rest)
      simp [refreshStep, he, ih (fun x hx => hpre x (List.mem_cons_of_mem e hx))]

/-- The refresh mutation is the per-item fold of the refresh step. -/
theorem dataCollectionMutation_refresh (coll items : List JsObj) :
    dataCollectionMutation coll "refresh" items = items.foldl refreshStep coll := by
  have h1 : ¬ ("refresh" : String) = "replace" := by decide
  have h2 : ¬ ("refresh" : String) = "remove" := by decide
  simp [dataCollectionMutation, h1, h2]

/-- The replace mutation installs the item list wholesale. -/
theorem dataCollectionMutation_replace (coll items : List JsObj) :
    dataCollectionMutation coll "replace" items = items := by
  rw [dataCollectionMutation, if_pos rfl]

/-- C6: a replace mutation installs any item list, so the refreshed state is
arbitrary; a refresh mutation folds the per-item step over the items; an item
whose id matches no entry is appended exactly once; an item matching an
existing entry (first match) is shallow-merged onto it in place — the item's
keys overwrite and every other existing field is preserved. -/
theorem c6_refresh_append_and_merge :
    (∀ old items : List JsObj, dataCollectionMutation old "replace" items = items) ∧
    (∀ coll items : List JsObj,
        dataCollectionMutation coll "refresh" items = items.foldl refreshStep coll) ∧
    (∀ (coll : List JsObj) (data : JsObj),
        (∀ e ∈ coll, jsEq (objGet e "id") (objGet data "id") = false) →
        refreshStep coll data = coll ++ [data]) ∧
    (∀ (pre post : List JsObj) (found data : JsObj),
        (∀ e ∈ pre, jsEq (objGet e "id") (objGet data "id") = false) →
        jsEq (objGet found "id") (objGet data "id") = true →
        refreshStep (pre ++ found :: post) data = pre ++ mergeInto found data :: post) ∧
    (∀ (found data : JsObj) (k : String),
        (data.map Prod.fst).Nodup →
        objGet (mergeInto found data) k
          = if hasKey data k then objGet data k else objGet found k) :=
  ⟨dataCollectionMutation_replace,
   dataCollectionMutation_refresh,
   refreshStep_append,
   refreshStep_merge,
   fun found data k h => objGet_mergeInto data found k h⟩

/-- Witness for C6: a fresh item is appended; `{id:1, b:8}` merged onto
`{id:1, a:7}` keeps `a` and gains `b`. -/
theorem c6_refresh_append_and_merge_witness :
    dataCollectionMutation [[("id", JsVal.num 9)]] "replace" [] = [] ∧
    dataCollectionMutation [[("id", JsVal.num 1)]] "refresh" [[("id", JsVal.num 2)]]
      = [[("id", JsVal.num 2)]].foldl refreshStep [[("id", JsVal.num 1)]] ∧
    refreshStep [[("id", JsVal.num 1)]] [("id", JsVal.num 2)]
      = [[("id", JsVal.num 1)]] ++ [[("id", JsVal.num 2)]] ∧
    refreshStep ([] ++ [("id", JsVal.num 1), ("a", JsVal.num 7)] :: [])
        [("id", JsVal.num 1), ("b", JsVal.num 8)]
      = [] ++ mergeInto [("id", JsVal.num 1), ("a", JsVal.num 7)]
          [("id", JsVal.num 1), ("b", JsVal.num 8)] :: [] ∧
    objGet (mergeInto [("id", JsVal.num 1), ("a", JsVal.num 7)]
        [("id", JsVal.num 1), ("b", JsVal.num 8)]) "a"
      = if hasKey [("id", JsVal.num 1), ("b", JsVal.num 8)] "a"
        then objGet [("id", JsVal.num 1), ("b", JsVal.num 8)] "a"
        else objGet [("id", JsVal.num 1), ("a", JsVal.num 7)] "a" := by
  have h := c6_refresh_append_and_merge
  exact ⟨h.1 _ _, h.2.1 _ _, h.2.2.1 _ _ (by decide),
         h.2.2.2.1 _ _ _ _ (by decide) (by decide), h.2.2.2.2 _ _ _ (by decide)⟩

/-- Appending the searched-for id makes the checked lookup truthy. -/
theorem foundStrTruthy_append_self (checked : List String) (id : String)
    (hid : ¬ id = "") :
    foundStrTruthy ((checked ++ [id]).find? (fun e => e == id)) = true := by
  rw [List.find?_append]
  cases hx : checked.find? (fun e => e == id) with
  | some s =>
      have hp := List.find?_some hx
      simp only at hp
      have hs : s = id := eq_of_beq hp
      subst hs
      simp [foundStrTruthy, hid]
  | none =>
      simp [foundStrTruthy, hid]

/-- Appending a non-matching id leaves the checked lookup unchanged. -/
theorem find?_append_other (checked : List String) (a id : String)
    (h : ¬ a = id) :
    (checked ++ [a]).find? (fun e => e == id) = checked.find? (fun e => e == id) := by
  have hb : (a == id) = false := by simpa using h
  rw [List.find?_append]
  simp [hb]

/-- A falsy checked lookup for a nonempty id means no occurrence at all. -/
theorem find?_eq_none_of_not_truthy (checked : List String) (id : String)
    (hid : ¬ id = "")
    (h : foundStrTruthy (checked.find? (fun e => e == id)) = false) :
    checked.find? (fun e => e == id) = none := by
  cases hx : checked.find? (fun e => e == id) with
  | none => rfl
  | some s =>
      have hp := List.find?_some hx
      simp only at hp
      have hs : s = id := eq_of_beq hp
      subst hs
      rw [hx] at h
      simp [foundStrTruthy, hid] at h

/-- Loop invariant equivalence: the source loop of `listNotLoadedIds`
(accumulating every id into `checkedIds`) computes the first-occurrence
de-duplication of the ids that are truthy and not loaded. -/
theorem listNotLoadedIdsGo_eq_dedup (st : ACState) (ids : List String)
    (checked seen : List String)
    (hcs : ∀ id : String, ¬ id = "" → isLoaded st id = false →
        foundStrTruthy (checked.find? (fun e => e == id)) = seen.any (fun e => e == id)) :
    listNotLoadedIdsGo st checked ids
      = dedupFirstGo seen (ids.filter (fun id => !(id == "") && !(isLoaded st id))) := by
  induction ids generalizing checked seen with
  | nil => simp [listNotLoadedIdsGo, dedupFirstGo]
  | cons id rest ih =>
      by_cases hid : id = ""
      · subst hid
        have hstep : listNotLoadedIdsGo st checked ("" :: rest)
            = listNotLoadedIdsGo st (checked ++ [""]) rest := by
          simp [listNotLoadedIdsGo]
        rw [hstep, List.filter_cons]
        simp only [beq_self_eq_true, Bool.not_true, Bool.false_and, if_false]
        refine ih (checked ++ [""]) seen (fun id2 h2 hl2 => ?_)
        rw [find?_append_other checked "" id2 (fun hc => h2 hc.symm)]
        exact hcs id2 h2 hl2
      · have hbid : (id == "") = false := by simpa using hid
        by_cases hl : isLoaded st id
        · have hstep : listNotLoadedIdsGo st checked (id :: rest)
              = listNotLoadedIdsGo st (checked ++ [id]) rest := by
            simp [listNotLoadedIdsGo, hl]
          rw [hstep, List.filter_cons]
          simp only [hl, Bool.not_true, Bool.and_false, if_false]
          refine ih (checked ++ [id]) seen (fun id2 h2 hl2 => ?_)
          have hne : ¬ id = id2 := fun hc => by rw [hc] at hl; rw [hl2] at hl; cases hl
          rw [find?_append_other checked id id2 hne]
          exact hcs id2 h2 hl2
        · have hl' : isLoaded st id = false := by simpa using hl
          have hcur := hcs id hid hl'
          rw [List.filter_cons]
          simp only [hbid, Bool.not_false, hl', Bool.true_and, Bool.and_true, if_true]
          by_cases hseen : seen.any (fun e => e == id) = true
          · have hstep : listNotLoadedIdsGo st checked (id :: rest)
                = listNotLoadedIdsGo st (checked ++ [id]) rest := by
              simp [listNotLoadedIdsGo, hcur, hseen, hl']
            rw [hstep]
            have hded : dedupFirstGo seen (id :: rest.filter (fun i => !(i == "") && !(isLoaded st i)))
                = dedupFirstGo seen (rest.filter (fun i => !(i == "") && !(isLoaded st i))) := by
              simp [dedupFirstGo, hseen]
            rw [hded]
            refine ih (checked ++ [id]) seen (fun id2 h2 hl2 => ?_)
            by_cases hsame : id2 = id
            · subst hsame
              rw [foundStrTruthy_append_self checked id2 h2]
              exact hseen.symm
            · rw [find?_append_other checked id id2 (fun hc => hsame hc.symm)]
              exact hcs id2 h2 hl2
          · have hseen' : seen.any (fun e => e == id) = false := Bool.eq_false_iff.mpr hseen
            have hstep : listNotLoadedIdsGo st checked (id :: rest)
                = id :: listNotLoadedIdsGo st (checked ++ [id]) rest := by
              simp [listNotLoadedIdsGo, hcur, hseen', hl', hbid]
            rw [hstep]
            have hded : dedupFirstGo seen (id :: rest.filter (fun i => !(i == "") && !(isLoaded st i)))
                = id :: dedupFirstGo (id :: seen) (rest.filter (fun i => !(i == "") && !(isLoaded st i))) := by
              simp [dedupFirstGo, hseen']
            rw [hded]
            congr 1
            refine ih (checked ++ [id]) (id :: seen) (fun id2 h2 hl2 => ?_)
            by_cases hsame : id2 = id
            · subst hsame
              rw [foundStrTruthy_append_self checked id2 h2]
              simp
            · rw [find?_append_other checked id id2 (fun hc => hsame hc.symm)]
              have hb2 : (id == id2) = false :=
                beq_eq_false_iff_ne.mpr (fun hc => hsame hc.symm)
              simp only [List.any_cons, hb2, Bool.false_or]
              exact hcs id2 h2 hl2

/-- The source id filter equals the spec-side first-occurrence filter of the
truthy unresolvable ids. -/
theorem listNotLoadedIds_eq_spec (st : ACState) (ids : List String) :
    listNotLoadedIds st ids = specNotLoadedIds st ids := by
  rw [listNotLoadedIds, specNotLoadedIds, dedupFirst]
  refine listNotLoadedIdsGo_eq_dedup st ids [] [] (fun id h2 hl2 => ?_)
  simp [foundStrTruthy]

/-- setPending only touches the pending flag. -/
theorem setPending_collection (st : ACState) (v : Bool) :
    (setPending st v).collection = st.collection := by
  cases h : st.pending <;> simp [setPending, h]

/-- setPending only touches the pending flag. -/
theorem setPending_notFoundIds (st : ACState) (v : Bool) :
    (setPending st v).notFoundIds = st.notFoundIds := by
  cases h : st.pending <;> simp [setPending, h]

/-- isLoaded ignores the pending flag. -/
theorem isLoaded_setPending (st : ACState) (v : Bool) (id : String) :
    isLoaded (setPending st v) id = isLoaded st id := by
  rw [isLoaded, isLoaded, isNotFound, isNotFound, setPending_collection,
      setPending_notFoundIds]

/-- The spec-side filter ignores the pending flag. -/
theorem specNotLoadedIds_setPending (st : ACState) (v : Bool) (ids : List String) :
    specNotLoadedIds (setPending st v) ids = specNotLoadedIds st ids := by
  simp [specNotLoadedIds, isLoaded_setPending]

/-- Everything the first-occurrence de-duplication emits comes from its
input. -/
theorem mem_dedupFirstGo (l : List String) (seen : List String) (a : String)
    (h : a ∈ dedupFirstGo seen l) : a ∈ l := by
  induction l generalizing seen with
  | nil => simp [dedupFirstGo] at h
  | cons id rest ih =>
      by_cases hs : seen.any (fun e => e == id) = true
      · rw [dedupFirstGo, if_pos hs] at h
        exact List.mem_cons_of_mem id (ih seen h)
      · rw [dedupFirstGo, if_neg hs] at h
        rcases List.mem_cons.mp h with h1 | h1
        · exact h1 ▸ List.mem_cons_self id rest
        · exact List.mem_cons_of_mem id (ih (id :: seen) h1)

/-- Every id the spec-side filter emits is nonempty. -/
theorem specNotLoadedIds_truthy (st : ACState) (ids : List String) (s : String)
    (h : s ∈ specNotLoadedIds st ids) : ¬ s = "" := by
  have hmem : s ∈ ids.filter (fun id => !(id == "") && !(isLoaded st id)) :=
    mem_dedupFirstGo _ _ _ h
  have hp := (List.mem_filter.mp hmem).2
  intro hc
  subst hc
  simp at hp

/-- Joining a nonempty list of nonempty fragments is nonempty. -/
theorem joinComma_ne_empty (l : List String) (hne : l ≠ [])
    (h : ∀ s ∈ l, ¬ s = "") : ¬ joinComma l = "" := by
  match l with
  | [] => exact absurd rfl hne
  | [s] => exact h s (List.mem_singleton.mpr rfl)
  | s :: s2 :: rest =>
      intro hc
      have hj : joinComma (s :: s2 :: rest) = s ++ "," ++ joinComma (s2 :: rest) := rfl
      rw [hj] at hc
      have hlen := congrArg String.length hc
      rw [String.length_append, String.length_append] at hlen
      have h1 : (",").length = 1 := rfl
      have h2 : ("").length = 0 := rfl
      rw [h1, h2] at hlen
      omega

/-- The id parameter `load` sends, characterised by the source filter: none
when the joined filtered list is empty, the joined filtered list otherwise. -/
theorem load_sent_char (st0 : ACState) (rp p : Option String)
    (server : Except Unit (List JsObj))
    (htr : jsTruthyStr (mergedIdParam rp p) = true) :
    (load st0 rp p server).sent
      = if joinComma (listNotLoadedIds (setPending st0 true)
            (splitComma ((mergedIdParam rp p).getD ""))) = ""
        then none
        else some (some (joinComma (listNotLoadedIds (setPending st0 true)
            (splitComma ((mergedIdParam rp p).getD ""))))) := by
  by_cases hj : joinComma (listNotLoadedIds (setPending st0 true)
      (splitComma ((mergedIdParam rp p).getD ""))) = ""
  · simp [load, htr, hj]
  · cases server <;> simp [load, htr, hj, loadRequestPart]

/-- C5 counterexample: on input id list `["1", ""]` against the empty state,
neither id is resolvable from the Collection or the not-found cache, yet the
source filter drops the falsy empty id the claim would keep; accordingly
`load({id:"1,"})` sends `"1"` and not the claimed `"1,"`. -/
theorem c5_counterexample_falsy_id_dropped :
    listNotLoadedIds ⟨[], [], none⟩ ["1", ""] = ["1"] ∧
    claimNotLoadedIds ⟨[], [], none⟩ ["1", ""] = ["1", ""] ∧
    listNotLoadedIds ⟨[], [], none⟩ ["1", ""]
      ≠ claimNotLoadedIds ⟨[], [], none⟩ ["1", ""] ∧
    isLoaded ⟨[], [], some false⟩ "" = false ∧
    (load ⟨[], [], some false⟩ none (some "1,") (.ok [])).sent = some (some "1") := by
  decide

/-- C5 as amended: the outgoing id list of `load` contains exactly the
truthy (nonempty) input ids that are resolvable neither from the Collection
nor from the not-found cache, duplicates kept only at first occurrence; when
no id survives the filter no request is issued at all. -/
theorem c5_amended_filtered_ids :
    (∀ (st : ACState) (ids : List String),
        listNotLoadedIds st ids = specNotLoadedIds st ids) ∧
    (∀ (st : ACState) (rp p : Option String) (server : Except Unit (List JsObj)),
        jsTruthyStr (mergedIdParam rp p) = true →
        (specNotLoadedIds st (splitComma ((mergedIdParam rp p).getD "")) = [] →
            (load st rp p server).sent = none) ∧
        (specNotLoadedIds st (splitComma ((mergedIdParam rp p).getD "")) ≠ [] →
            (load st rp p server).sent
              = some (some (joinComma
                  (specNotLoadedIds st (splitComma ((mergedIdParam rp p).getD ""))))))) := by
  refine ⟨listNotLoadedIds_eq_spec, fun st rp p server htr => ?_⟩
  have heq : listNotLoadedIds (setPending st true)
        (splitComma ((mergedIdParam rp p).getD ""))
      = specNotLoadedIds st (splitComma ((mergedIdParam rp p).getD "")) := by
    rw [listNotLoadedIds_eq_spec, specNotLoadedIds_setPending]
  rw [load_sent_char st rp p server htr, heq]
  constructor
  · intro h0
    rw [h0]
    simp [joinComma]
  · intro hne
    rw [if_neg (joinComma_ne_empty _ hne
      (fun s hs => specNotLoadedIds_truthy st _ s hs))]

/-- Witness for the amended C5: the spec scenario — ids `"1,2,3"` with 1 in
the Collection and 2 in the not-found cache — sends exactly the joined
filtered list, and the filter agrees with its spec-side form. -/
theorem c5_amended_filtered_ids_witness :
    listNotLoadedIds ⟨[[("id", JsVal.num 1)]], [JsVal.str "2"], some false⟩ ["1", "2", "3"]
      = specNotLoadedIds ⟨[[("id", JsVal.num 1)]], [JsVal.str "2"], some false⟩
          ["1", "2", "3"] ∧
    (load ⟨[[("id", JsVal.num 1)]], [JsVal.str "2"], some false⟩ none (some "1,2,3")
        (.ok [])).sent
      = some (some (joinComma (specNotLoadedIds
          ⟨[[("id", JsVal.num 1)]], [JsVal.str "2"], some false⟩
          (splitComma ((mergedIdParam none (some "1,2,3")).getD ""))))) :=
  ⟨c5_amended_filtered_ids.1 ⟨[[("id", JsVal.num 1)]], [JsVal.str "2"], some false⟩
      ["1", "2", "3"],
   (c5_amended_filtered_ids.2 ⟨[[("id", JsVal.num 1)]], [JsVal.str "2"], some false⟩
      none (some "1,2,3") (.ok []) (by decide)).2 (by decide)⟩

/-- Lawful boolean equality is symmetric. -/
theorem beq_symm_of_lawful {α : Type} [BEq α] [LawfulBEq α] (a b : α) :
    (a == b) = (b == a) := by
  by_cases h : a = b
  · subst h
    rfl
  · rw [beq_eq_false_iff_ne.mpr h, beq_eq_false_iff_ne.mpr (Ne.symm h)]

/-- Loose equality is symmetric. -/
theorem jsEq_symm (a b : JsVal) : jsEq a b = jsEq b a := by
  cases a <;> cases b <;> first
    | rfl
    | exact beq_symm_of_lawful _ _

/-- Removing an entry only discards elements. -/
theorem mem_removeFirstMatch (l : List JsVal) (x a : JsVal)
    (h : a ∈ removeFirstMatch l x) : a ∈ l := by
  induction l with
  | nil => simp [removeFirstMatch] at h
  | cons b t ih =>
      by_cases hb : jsEq b x = true
      · simp only [removeFirstMatch] at h
        rw [if_pos hb] at h
        exact List.mem_cons_of_mem b h
      · simp only [removeFirstMatch] at h
        rw [if_neg hb] at h
        rcases List.mem_cons.mp h with h1 | h1
        · exact h1 ▸ List.mem_cons_self b t
        · exact List.mem_cons_of_mem b (ih h1)

/-- Removing an entry preserves pairwise distinctness. -/
theorem pairwise_removeFirstMatch (l : List JsVal) (x : JsVal)
    (h : nfPairwise l) : nfPairwise (removeFirstMatch l x) := by
  rw [nfPairwise] at *
  induction l with
  | nil => simp [removeFirstMatch]
  | cons b t ih =>
      rw [List.pairwise_cons] at h
      obtain ⟨hb, ht⟩ := h
      by_cases hbx : jsEq b x = true
      · simp only [removeFirstMatch]
        rw [if_pos hbx]
        exact ht
      · simp only [removeFirstMatch]
        rw [if_neg hbx, List.pairwise_cons]
        exact ⟨fun a ha => hb a (mem_removeFirstMatch t x a ha), ih ht⟩

/-- The guarded push of `addToNotFound` preserves pairwise distinctness. -/
theorem pairwise_addToNotFound (st : ACState) (id : JsVal)
    (h : nfPairwise st.notFoundIds) : nfPairwise (addToNotFound st id).notFoundIds := by
  rw [nfPairwise] at *
  by_cases hany : st.notFoundIds.any (fun e => jsEq e id) = true
  · simp only [addToNotFound]
    rw [if_pos hany]
    exact h
  · simp only [addToNotFound]
    rw [if_neg hany, List.pairwise_append]
    refine ⟨h, List.pairwise_singleton _ _, fun a ha b hb => ?_⟩
    rw [List.mem_singleton] at hb
    subst hb
    have hall := List.any_eq_false.mp (Bool.eq_false_iff.mpr hany) a ha
    exact Bool.eq_false_iff.mpr hall

/-- checkForNotFound preserves pairwise distinctness of the not-found set. -/
theorem pairwise_checkForNotFound (ids : List String) (st : ACState)
    (data : List JsObj) (h : nfPairwise st.notFoundIds) :
    nfPairwise (checkForNotFound st ids data).notFoundIds := by
  induction ids generalizing st with
  | nil => exact h
  | cons id rest ih =>
      have hstep : checkForNotFound st (id :: rest) data
          = checkForNotFound
              (if (data.find? (fun e => jsStrictEq (objGet e "id") (.str id))).isSome
               then removeFromNotFound st (.str id)
               else addToNotFound st (.str id)) rest data := by
        simp only [checkForNotFound, List.foldl_cons]
      rw [hstep]
      by_cases hfound :
          ((data.find? (fun e => jsStrictEq (objGet e "id") (.str id))).isSome) = true
      · rw [if_pos hfound]
        exact ih _ (pairwise_removeFirstMatch _ _ h)
      · rw [if_neg hfound]
        exact ih _ (pairwise_addToNotFound _ _ h)

/-- Case analysis of the state `getById` leaves behind. -/
theorem getById_state_cases (st : ACState) (id : JsVal) (b : Bool)
    (srv : Option JsObj) :
    (getById st id b srv).state = st ∨
    (∃ found, st.collection.find? (fun e => jsEq (objGet e "id") id) = some found ∧
        (getById st id b srv).state = removeFromNotFound st (objGet found "id")) ∨
    (st.collection.find? (fun e => jsEq (objGet e "id") id) = none ∧
      ((∃ data, srv = some data ∧
          (getById st id b srv).state
            = updateCollection (removeFromNotFound st id) [data]) ∨
       (srv = none ∧ (getById st id b srv).state = addToNotFound st id))) := by
  by_cases htr : jsTruthy id = false
  · left
    simp [getById, htr]
  · cases hf : st.collection.find? (fun e => jsEq (objGet e "id") id) with
    | some found =>
        right
        left
        exact ⟨found, rfl, by simp [getById, htr, hf]⟩
    | none =>
        by_cases hnf : (isNotFound st id && !b) = true
        · left
          simp [getById, htr, hf, hnf]
        · right
          right
          refine ⟨rfl, ?_⟩
          cases hx : srv with
          | some data =>
              exact Or.inl ⟨data, rfl, by simp [getById, htr, hf, hnf]⟩
          | none =>
              exact Or.inr ⟨rfl, by simp [getById, htr, hf, hnf]⟩

/-- updateCollection only touches the collection. -/
theorem notFoundIds_updateCollection (st : ACState) (d : List JsObj) :
    (updateCollection st d).notFoundIds = st.notFoundIds := rfl

/-- Case analysis of the state `load` leaves behind. -/
theorem load_state_cases (st0 : ACState) (rp p : Option String)
    (srv : Except Unit (List JsObj)) :
    (load st0 rp p srv).state = setPending st0 true ∨
    (load st0 rp p srv).state = setPending (setPending st0 true) false ∨
    (∃ data, srv = .ok data ∧
      ((load st0 rp p srv).state
          = setPending (updateCollection (checkForNotFound (setPending st0 true)
              (splitComma (p.getD "")) data) data) false ∨
       (load st0 rp p srv).state
          = setPending (updateCollection (setPending st0 true) data) false)) := by
  by_cases h1 : jsTruthyStr (mergedIdParam rp p) = true
  · by_cases h2 : joinComma (listNotLoadedIds (setPending st0 true)
        (splitComma ((mergedIdParam rp p).getD ""))) = ""
    · left
      simp [load, h1, h2]
    · cases hx : srv with
      | error e =>
          right
          left
          simp [load, h1, h2, loadRequestPart]
      | ok data =>
          right
          right
          refine ⟨data, rfl, ?_⟩
          by_cases h3 : jsTruthyStr p = true
          · left
            simp [load, h1, h2, loadRequestPart, h3]
          · right
            simp [load, h1, h2, loadRequestPart, h3]
  · cases hx : srv with
    | error e =>
        right
        left
        simp [load, h1, loadRequestPart]
    | ok data =>
        right
        right
        refine ⟨data, rfl, ?_⟩
        by_cases h3 : jsTruthyStr p = true
        · left
          simp [load, h1, loadRequestPart, h3]
        · right
          simp [load, h1, loadRequestPart, h3]

/-- getById preserves pairwise distinctness of the not-found set. -/
theorem pairwise_getById (st : ACState) (id : JsVal) (b : Bool)
    (srv : Option JsObj) (h : nfPairwise st.notFoundIds) :
    nfPairwise ((getById st id b srv).state).notFoundIds := by
  rcases getById_state_cases st id b srv with
    hc | ⟨found, _, hc⟩ | ⟨_, ⟨data, _, hc⟩ | ⟨_, hc⟩⟩ <;> rw [hc]
  · exact h
  · exact pairwise_removeFirstMatch _ _ h
  · rw [notFoundIds_updateCollection]
    exact pairwise_removeFirstMatch _ _ h
  · exact pairwise_addToNotFound _ _ h

/-- load preserves pairwise distinctness of the not-found set. -/
theorem pairwise_load (st0 : ACState) (rp p : Option String)
    (srv : Except Unit (List JsObj)) (h : nfPairwise st0.notFoundIds) :
    nfPairwise ((load st0 rp p srv).state).notFoundIds := by
  rcases load_state_cases st0 rp p srv with
    hc | hc | ⟨data, _, hc | hc⟩ <;> rw [hc]
  · rw [setPending_notFoundIds]
    exact h
  · rw [setPending_notFoundIds, setPending_notFoundIds]
    exact h
  · rw [setPending_notFoundIds, notFoundIds_updateCollection]
    refine pairwise_checkForNotFound _ _ _ ?_
    rw [setPending_notFoundIds]
    exact h
  · rw [setPending_notFoundIds, notFoundIds_updateCollection, setPending_notFoundIds]
    exact h

/-- C10: in every state reachable from an empty not-found set by any sequence
of getById, load, addToNotFound, removeFromNotFound, checkForNotFound and
reset operations, `notFoundIds` holds no two entries that are loosely equal:
the guarded push of `addToNotFound` keeps the set duplicate-free. -/
theorem c10_notfound_duplicate_free (ops : List FullOp) (st : ACState)
    (h0 : st.notFoundIds = []) :
    nfPairwise ((ops.foldl applyFullOp st).notFoundIds) := by
  have main : ∀ (l : List FullOp) (s : ACState), nfPairwise s.notFoundIds →
      nfPairwise ((l.foldl applyFullOp s).notFoundIds) := by
    intro l
    induction l with
    | nil => exact fun s h => h
    | cons op rest ih =>
        intro s h
        rw [List.foldl_cons]
        refine ih _ ?_
        cases op with
        | fGetById id b srv => exact pairwise_getById _ _ _ _ h
        | fLoad rp p srv => exact pairwise_load _ _ _ _ h
        | fAdd id => exact pairwise_addToNotFound _ _ h
        | fRemove id => exact pairwise_removeFirstMatch _ _ h
        | fCheck ids data => exact pairwise_checkForNotFound _ _ _ h
        | fReset => exact List.Pairwise.nil
  refine main ops st ?_
  rw [nfPairwise, h0]
  exact List.Pairwise.nil

/-- Witness for C10 at a concrete operation trace mixing every operation. -/
theorem c10_notfound_duplicate_free_witness :
    nfPairwise ((List.foldl applyFullOp ⟨[], [], none⟩
      [FullOp.fAdd (JsVal.str "1"), FullOp.fAdd (JsVal.num 1),
       FullOp.fGetById (JsVal.num 2) false none,
       FullOp.fLoad none (some "3") (.ok []),
       FullOp.fCheck ["4"] [], FullOp.fRemove (JsVal.num 1),
       FullOp.fReset, FullOp.fAdd (JsVal.str "01")]).notFoundIds) :=
  c10_notfound_duplicate_free
    [FullOp.fAdd (JsVal.str "1"), FullOp.fAdd (JsVal.num 1),
     FullOp.fGetById (JsVal.num 2) false none,
     FullOp.fLoad none (some "3") (.ok []),
     FullOp.fCheck ["4"] [], FullOp.fRemove (JsVal.num 1),
     FullOp.fReset, FullOp.fAdd (JsVal.str "01")] ⟨[], [], none⟩ rfl

/-- After removing the first match from a pairwise-distinct list of numeric
ids, no loosely-equal entry remains. -/
theorem removeFirstMatch_no_match (l : List JsVal) (n : Int)
    (hnums : ∀ v ∈ l, isNumVal v = true) (hpw : nfPairwise l) :
    ∀ v ∈ removeFirstMatch l (JsVal.num n), jsEq v (JsVal.num n) = false := by
  rw [nfPairwise] at hpw
  induction l with
  | nil =>
      intro v hv
      simp [removeFirstMatch] at hv
  | cons b t ih =>
      rw [List.pairwise_cons] at hpw
      obtain ⟨hb, ht⟩ := hpw
      by_cases hbx : jsEq b (JsVal.num n) = true
      · simp only [removeFirstMatch]
        rw [if_pos hbx]
        intro v hv
        by_contra hcon
        have hv1 : jsEq v (JsVal.num n) = true := by
          cases hx : jsEq v (JsVal.num n)
          · exact absurd hx hcon
          · rfl
        have hbnum := hnums b (List.mem_cons_self b t)
        have hvnum := hnums v (List.mem_cons_of_mem b hv)
        cases b with
        | num k =>
            cases v with
            | num m =>
                have hk : k = n := by simpa [jsEq] using hbx
                have hm : m = n := by simpa [jsEq] using hv1
                have hcontra := hb (JsVal.num m) hv
                rw [hk, hm] at hcontra
                simp [jsEq] at hcontra
            | str s => simp [isNumVal] at hvnum
            | undefined => simp [isNumVal] at hvnum
        | str s => simp [isNumVal] at hbnum
        | undefined => simp [isNumVal] at hbnum
      · simp only [removeFirstMatch]
        rw [if_neg hbx]
        intro v hv
        rcases List.mem_cons.mp hv with h1 | h1
        · subst h1
          exact Bool.eq_false_iff.mpr hbx
        · exact ih (fun u hu => hnums u (List.mem_cons_of_mem b hu)) ht v h1

/-- Entries of the not-found set after a guarded push. -/
theorem mem_addToNotFound (st : ACState) (id nf : JsVal)
    (h : nf ∈ (addToNotFound st id).notFoundIds) : nf ∈ st.notFoundIds ∨ nf = id := by
  by_cases hany : st.notFoundIds.any (fun e => jsEq e id) = true
  · simp only [addToNotFound] at h
    rw [if_pos hany] at h
    exact Or.inl h
  · simp only [addToNotFound] at h
    rw [if_neg hany] at h
    rcases List.mem_append.mp h with h1 | h1
    · exact Or.inl h1
    · exact Or.inr (List.mem_singleton.mp h1)

/-- addToNotFound only touches the not-found set. -/
theorem collection_addToNotFound (st : ACState) (id : JsVal) :
    (addToNotFound st id).collection = st.collection := by
  simp only [addToNotFound]
  split <;> rfl

/-- One faithful trace operation — a getById with numeric id whose non-null
response carries the requested id, or a reset — preserves the disjointness
invariant together with numeric-ness and pairwise distinctness of the
not-found set. -/
theorem c2Inv_step (st : ACState) (op : ACOp) (hop : faithfulOpB op = true)
    (hdisj : ∀ e ∈ st.collection, ∀ nf ∈ st.notFoundIds,
        jsEq (objGet e "id") nf = false)
    (hnums : ∀ nf ∈ st.notFoundIds, isNumVal nf = true)
    (hpw : nfPairwise st.notFoundIds) :
    (∀ e ∈ (applyACOp st op).collection, ∀ nf ∈ (applyACOp st op).notFoundIds,
        jsEq (objGet e "id") nf = false) ∧
    (∀ nf ∈ (applyACOp st op).notFoundIds, isNumVal nf = true) ∧
    nfPairwise (applyACOp st op).notFoundIds := by
  cases op with
  | opReset =>
      refine ⟨?_, ?_, List.Pairwise.nil⟩
      · intro e he nf hnf
        simp [applyACOp, reset] at hnf
      · intro nf hnf
        simp [applyACOp, reset] at hnf
  | opGetById id b srv =>
      have hidnum : isNumVal id = true := by
        cases srv with
        | some data =>
            have hop2 : (isNumVal id && decide (objGet data "id" = id)) = true := hop
            exact (Bool.and_eq_true_iff.mp hop2).1
        | none => exact hop
      obtain ⟨n, rfl⟩ : ∃ n, id = JsVal.num n := by
        cases id with
        | num n => exact ⟨n, rfl⟩
        | str s => simp [isNumVal] at hidnum
        | undefined => simp [isNumVal] at hidnum
      have happ : applyACOp st (.opGetById (JsVal.num n) b srv)
          = (getById st (JsVal.num n) b srv).state := rfl
      rcases getById_state_cases st (JsVal.num n) b srv with
        hc | ⟨found, hfind, hc⟩ | ⟨hfind, ⟨data, hsrv, hc⟩ | ⟨hsrv, hc⟩⟩
      · rw [happ, hc]
        exact ⟨hdisj, hnums, hpw⟩
      · rw [happ, hc]
        refine ⟨?_, ?_, pairwise_removeFirstMatch _ _ hpw⟩
        · intro e he nf hnf
          exact hdisj e he nf (mem_removeFirstMatch _ _ _ hnf)
        · intro nf hnf
          exact hnums nf (mem_removeFirstMatch _ _ _ hnf)
      · subst hsrv
        have hop2 : (isNumVal (JsVal.num n)
            && decide (objGet data "id" = JsVal.num n)) = true := hop
        have hdata : objGet data "id" = JsVal.num n :=
          of_decide_eq_true (Bool.and_eq_true_iff.mp hop2).2
        rw [happ, hc]
        have hfnone : ∀ e ∈ st.collection, jsEq (objGet e "id") (JsVal.num n) = false := by
          intro e he
          exact Bool.eq_false_iff.mpr (List.find?_eq_none.mp hfind e he)
        have hcoll : (updateCollection (removeFromNotFound st (JsVal.num n))
              [data]).collection
            = st.collection ++ [data] := by
          show dataCollectionMutation st.collection "refresh" [data]
              = st.collection ++ [data]
          rw [dataCollectionMutation_refresh]
          show refreshStep st.collection data = st.collection ++ [data]
          refine refreshStep_append _ _ (fun e he => ?_)
          rw [hdata]
          exact hfnone e he
        have hnfids : (updateCollection (removeFromNotFound st (JsVal.num n))
              [data]).notFoundIds
            = removeFirstMatch st.notFoundIds (JsVal.num n) := rfl
        have hnomatch := removeFirstMatch_no_match st.notFoundIds n hnums hpw
        refine ⟨?_, ?_, ?_⟩
        · intro e he nf hnf
          rw [hcoll] at he
          rw [hnfids] at hnf
          rcases List.mem_append.mp he with h1 | h1
          · exact hdisj e h1 nf (mem_removeFirstMatch _ _ _ hnf)
          · rw [List.mem_singleton] at h1
            subst h1
            rw [hdata, jsEq_symm]
            exact hnomatch nf hnf
        · intro nf hnf
          rw [hnfids] at hnf
          exact hnums nf (mem_removeFirstMatch _ _ _ hnf)
        · rw [hnfids]
          exact pairwise_removeFirstMatch _ _ hpw
      · subst hsrv
        rw [happ, hc]
        have hfnone : ∀ e ∈ st.collection, jsEq (objGet e "id") (JsVal.num n) = false := by
          intro e he
          exact Bool.eq_false_iff.mpr (List.find?_eq_none.mp hfind e he)
        refine ⟨?_, ?_, pairwise_addToNotFound _ _ hpw⟩
        · intro e he nf hnf
          rw [collection_addToNotFound] at he
          rcases mem_addToNotFound st _ nf hnf with h1 | h1
          · exact hdisj e he nf h1
          · subst h1
            exact hfnone e he
        · intro nf hnf
          rcases mem_addToNotFound st _ nf hnf with h1 | h1
          · exact hnums nf h1
          · subst h1
            rfl

/-- C2 counterexample: from a state satisfying the invariant (id 1 in the
Collection, empty not-found set), one `load({id:"1,2"})` answered with the
single record `{id:"2"}` leaves the string id `"1"` in `notFoundIds` while
the Collection still holds the entry with numeric id 1 — the same identifier
under the collection's value-equal comparison, so the invariant is broken:
`checkForNotFound` reconciles the unfiltered request ids against the response
with strict equality. -/
theorem c2_counterexample_load_breaks_invariant :
    disjointNF ⟨[[("id", JsVal.num 1)]], [], some false⟩ = true ∧
    disjointNF (load ⟨[[("id", JsVal.num 1)]], [], some false⟩ none (some "1,2")
        (.ok [[("id", JsVal.str "2")]])).state = false := by
  decide

/-- C2 as amended: along every trace of getById and reset operations starting
from an empty not-found set — each getById using a numeric id and a server
response that is null or carries exactly the requested id — no identifier is
simultaneously present in the Collection and in `notFoundIds` under the
loose comparison.  (load operations, excluded here, can break the
invariant.) -/
theorem c2_amended_disjoint_under_getById_reset (ops : List ACOp) (st : ACState)
    (h0 : st.notFoundIds = []) (hops : ops.all faithfulOpB = true) :
    disjointNF (ops.foldl applyACOp st) = true := by
  have main : ∀ (l : List ACOp) (s : ACState),
      (∀ e ∈ s.collection, ∀ nf ∈ s.notFoundIds, jsEq (objGet e "id") nf = false) →
      (∀ nf ∈ s.notFoundIds, isNumVal nf = true) →
      nfPairwise s.notFoundIds →
      l.all faithfulOpB = true →
      ∀ e ∈ (l.foldl applyACOp s).collection, ∀ nf ∈ (l.foldl applyACOp s).notFoundIds,
        jsEq (objGet e "id") nf = false := by
    intro l
    induction l with
    | nil =>
        intro s h1 _ _ _
        exact h1
    | cons op rest ih =>
        intro s h1 h2 h3 hall
        rw [List.all_cons, Bool.and_eq_true_iff] at hall
        rw [List.foldl_cons]
        obtain ⟨g1, g2, g3⟩ := c2Inv_step s op hall.1 h1 h2 h3
        exact ih _ g1 g2 g3 hall.2
  have hd := main ops st
      (fun e _ nf hnf => absurd (h0 ▸ hnf) (List.not_mem_nil nf))
      (fun nf hnf => absurd (h0 ▸ hnf) (List.not_mem_nil nf))
      (by rw [nfPairwise, h0]; exact List.Pairwise.nil) hops
  simp only [disjointNF, List.all_eq_true]
  intro e he nf hnf
  rw [Bool.not_eq_true']
  exact hd e he nf hnf

/-- Witness for the amended C2: a trace of a miss, a reset and a bypassed
hit keeps Collection and not-found set disjoint. -/
theorem c2_amended_disjoint_witness :
    disjointNF (List.foldl applyACOp ⟨[], [], none⟩
      [ACOp.opGetById (JsVal.num 5) false none, ACOp.opReset,
       ACOp.opGetById (JsVal.num 3) true (some [("id", JsVal.num 3)])]) = true :=
  c2_amended_disjoint_under_getById_reset
    [ACOp.opGetById (JsVal.num 5) false none, ACOp.opReset,
     ACOp.opGetById (JsVal.num 3) true (some [("id", JsVal.num 3)])]
    ⟨[], [], none⟩ rfl (by decide)

end Appjs
